import Mathlib

/-!
Verification of the quadrature-projection subsystem (QProjector,
DataSetDescriptor) and of the local divergence integrators of this
repository.  The QProjector implementation itself is not present under
src/ (only its test, tests/base/qprojector.cc, is), so the projection
subsystem is modelled from the specification; the divergence integrators
are translated directly from include/deal.II/integrators/divergence.h.
Coordinates and scalar data are modelled as rationals (exact for every
arithmetic operation the code performs); quadrature weights, which are
scaled by a Euclidean length, are modelled as real numbers.
-/

namespace DealII

/-- Modelled from the spec: `Point<d>` is an immutable d-tuple of reals
(spec section 3); coordinates are represented exactly as rationals. -/
abbrev Pt (d : ℕ) := Fin d → ℚ

/-- Modelled from the spec: `Quadrature<d>` is an immutable ordered
sequence of (point, weight) pairs (spec section 3), kept here as two
parallel lists; the order matters for the offset arithmetic. -/
structure Quadrature (d : ℕ) where
  points : List (Pt d)
  weights : List ℝ

/-- Number of quadrature points of a rule. -/
def Quadrature.size {d : ℕ} (q : Quadrature d) : ℕ := q.points.length

/-- Sum of the weights of a rule. -/
noncomputable def Quadrature.weightSum {d : ℕ} (q : Quadrature d) : ℝ := q.weights.sum

/-- Modelled from the spec: `ReferenceCellKind` variant (spec section 3). -/
inductive CellKind
  | line
  | triangle
  | quadrilateral
  | tetrahedron
  | pyramid
  | wedge
  | hexahedron
deriving DecidableEq

/-- Modelled from the spec: the shape of a face (sub-entity) of a
reference cell, which determines the applicable orientation group. -/
inductive FaceShape
  | vertex
  | segment
  | tri
  | quad
deriving DecidableEq

/-- Dimension of the reference cell of each kind. -/
def cellDim : CellKind → ℕ
  | .line => 1
  | .triangle => 2
  | .quadrilateral => 2
  | .tetrahedron => 3
  | .pyramid => 3
  | .wedge => 3
  | .hexahedron => 3

/-- Modelled from the spec: the face shapes of each cell kind in canonical
topology order (spec sections 2 and 4.4: a wedge has triangular faces 0,1
and quadrilateral faces 2,3,4; a pyramid has the quadrilateral base face 0
and four triangular faces). -/
def faceShapes : CellKind → List FaceShape
  | .line => [.vertex, .vertex]
  | .triangle => [.segment, .segment, .segment]
  | .quadrilateral => [.segment, .segment, .segment, .segment]
  | .tetrahedron => [.tri, .tri, .tri, .tri]
  | .pyramid => [.quad, .tri, .tri, .tri, .tri]
  | .wedge => [.tri, .tri, .quad, .quad, .quad]
  | .hexahedron => [.quad, .quad, .quad, .quad, .quad, .quad]

/-- Number of faces of a cell kind. -/
def numFaces (k : CellKind) : ℕ := (faceShapes k).length

/-- Modelled from the spec: number of orientation variants of a face
shape — one boolean for a line sub-entity, up to 8 combinations for a
quadrilateral face, a 6-element subgroup for a triangular face
(spec sections 3 and 4.1). -/
def orientCount : FaceShape → ℕ
  | .vertex => 1
  | .segment => 2
  | .tri => 6
  | .quad => 8

/-- Orientation-variant count of face `f` of cell kind `k`. -/
def variantsOf (k : CellKind) (f : ℕ) : ℕ :=
  orientCount ((faceShapes k).getD f .vertex)

/-- The list of orientation-variant counts of the faces of `k`, in
canonical face order. -/
def variantList (k : CellKind) : List ℕ := (faceShapes k).map orientCount

/-- Total number of (face, orientation) pairs of a cell kind. -/
def totalPairs (k : CellKind) : ℕ := (variantList k).sum

/-- Modelled from the spec: `OrientationDescriptor` — a triple of booleans
(orientation, flip, rotation) (spec section 3); for line sub-entities only
the first boolean (`reversed`) is used. -/
abbrev Orient := Bool × Bool × Bool

/-- Modelled from the spec: the fixed enumeration index of an orientation
descriptor, orientation bit fastest, then flip, then rotation
(spec section 4.3). -/
def orientIndex3 (a : Orient) : ℕ :=
  a.1.toNat + 2 * a.2.1.toNat + 4 * a.2.2.toNat

/-- Inverse of `orientIndex3` on indices below 8. -/
def orientOfIndex (i : ℕ) : Orient :=
  (i.testBit 0, i.testBit 1, i.testBit 2)

/-- An orientation descriptor is valid for a face shape exactly when its
enumeration index is below the shape's variant count (spec section 4.1:
all 8 combinations for a quadrilateral face, a 6-element subgroup for a
triangular face, the boolean for a line, only the identity for a vertex). -/
def validOrient (s : FaceShape) (a : Orient) : Prop :=
  orientIndex3 a < orientCount s

instance (s : FaceShape) (a : Orient) : Decidable (validOrient s a) := by
  unfold validOrient; infer_instance

/-- Modelled from the spec: Euclidean length of the segment from `p1` to
`p2` (spec sections 3 and 4.3: weight scaling by the segment length). -/
noncomputable def segLen {d : ℕ} (p1 p2 : Pt d) : ℝ :=
  Real.sqrt (∑ i, ((p2 i - p1 i : ℚ) : ℝ) ^ 2)

/-- Modelled from the spec: `project_to_line(cell_kind, rule, p1, p2)` maps
each 1-d quadrature point `t` to `p1 + t*(p2-p1)` and scales each weight by
the Euclidean length of the segment; it takes no orientation parameter and
works for any dimension d (spec section 4.3).  The implementation is
missing from src/, where only its test qprojector.cc appears. -/
noncomputable def project_to_line (_kind : CellKind) (d : ℕ) (rule : Quadrature 1)
    (p1 p2 : Pt d) : Quadrature d where
  points := rule.points.map (fun t => fun i => p1 i + t 0 * (p2 i - p1 i))
  weights := rule.weights.map (fun w => w * segLen p1 p2)

/-- The one-point midpoint rule on the unit interval, with weight 1. -/
noncomputable def midpointRule1 : Quadrature 1 where
  points := [fun _ => 1 / 2]
  weights := [1]

/-- C1: for every 1-d rule and endpoints, the sum of the weights of
`project_to_line` equals the sum of the original weights times the
Euclidean length of the target segment; in particular a single-point rule
with weight 1 projected between p1 = (1,3) and p2 = (7,-5) yields total
weight 10. -/
theorem project_to_line_weight_sum :
    (∀ (kind : CellKind) (d : ℕ) (rule : Quadrature 1) (p1 p2 : Pt d),
      (project_to_line kind d rule p1 p2).weightSum =
        rule.weightSum * segLen p1 p2) ∧
    (project_to_line .quadrilateral 2 midpointRule1 ![1, 3] ![7, -5]).weightSum
      = 10 := by
  constructor
  · intro kind d rule p1 p2
    simp only [project_to_line, Quadrature.weightSum]
    simpa using List.sum_map_mul_right rule.weights id (segLen p1 p2)
  · simp only [project_to_line, Quadrature.weightSum, midpointRule1, segLen,
      Fin.sum_univ_two, Matrix.cons_val_zero, Matrix.cons_val_one, Matrix.head_cons,
      List.map_cons, List.map_nil, List.sum_cons, List.sum_nil]
    norm_num
    rw [show ((100 : ℝ)) = 10 ^ 2 by norm_num, Real.sqrt_sq (by norm_num)]

/-- C2: `project_to_line` returns a quadrature of the same size whose k-th
point is p1 + t_k*(p2-p1), in the same order as the input rule, for any
dimension; the direction is determined solely by the endpoint order. -/
theorem project_to_line_points (kind : CellKind) (d : ℕ) (rule : Quadrature 1)
    (p1 p2 : Pt d) :
    (project_to_line kind d rule p1 p2).size = rule.size ∧
    ∀ k, k < rule.size →
      (project_to_line kind d rule p1 p2).points.getD k (fun _ => 0) =
        fun i => p1 i + (rule.points.getD k (fun _ => 0)) 0 * (p2 i - p1 i) := by
  refine ⟨by simp [project_to_line, Quadrature.size], ?_⟩
  intro k hk
  have hk' : k < rule.points.length := hk
  simp only [project_to_line]
  rw [List.getD_eq_getElem?_getD, List.getElem?_map,
    List.getElem?_eq_getElem hk', List.getD_eq_getElem?_getD,
    List.getElem?_eq_getElem hk']
  rfl

/-- Witness for C2: concrete instantiation at the midpoint rule with
p1 = (1,3), p2 = (7,-5), k = 0. -/
theorem project_to_line_points_witness :
    0 < midpointRule1.size ∧
    (project_to_line .quadrilateral 2 midpointRule1 ![1, 3] ![7, -5]).points.getD
        0 (fun _ => 0) =
      fun i => (![1, 3] : Pt 2) i +
        (midpointRule1.points.getD 0 (fun _ => 0)) 0 *
          ((![7, -5] : Pt 2) i - (![1, 3] : Pt 2) i) :=
  ⟨by decide,
    (project_to_line_points .quadrilateral 2 midpointRule1 ![1, 3] ![7, -5]).2
      0 (by decide)⟩

/-- Modelled from the spec: line sub-entity permutation — when `reversed`
is true, remap t ↦ 1 - t (spec 4.1). -/
def segPerm (reversed : Bool) (p : Pt 1) : Pt 1 :=
  if reversed then (fun _ => 1 - p 0) else p

/-- Modelled from the spec: the 8 quadrilateral-face permutations, a group
acting on the unit square by axis swap and per-axis reflection about 0.5
(spec 4.1).  The rotation bit swaps the two axes, the flip bit reflects
the second axis, the orientation bit reflects the first axis; the
all-false triple is the identity. -/
def quadPerm (a : Orient) (p : Pt 2) : Pt 2 :=
  let q := if a.2.2 then ![p 1, p 0] else p
  let r := if a.2.1 then ![q 0, 1 - q 1] else q
  if a.1 then ![1 - r 0, r 1] else r

/-- Modelled from the spec: rotation of the reference triangle, cycling
its barycentric coordinates (spec 4.1). -/
def triRot (p : Pt 2) : Pt 2 := ![1 - p 0 - p 1, p 0]

/-- Modelled from the spec: the 6-element triangular-face orientation
subgroup, 3 rotations times 2 reflections (spec 4.1): index i acts as the
(i / 2)-fold rotation composed with the coordinate swap when i is odd;
index 0 is the identity. -/
def triPerm (i : ℕ) (p : Pt 2) : Pt 2 :=
  triRot^[i / 2] (if i % 2 = 1 then ![p 1, p 0] else p)

/-- Modelled from the spec: the permutation attached to an orientation
descriptor on a 2-dimensional face of the given shape (spec 4.1). -/
def shapePerm2 (s : FaceShape) (a : Orient) : Pt 2 → Pt 2 :=
  match s with
  | .quad => quadPerm a
  | .tri => triPerm (orientIndex3 a)
  | _ => fun p => p

/-- Modelled from the spec: `OrientationPermutation.permute` — maps a
face-local parametric point to its permuted form for a given orientation
descriptor, dispatching on the shape of face `f` of cell kind `k`
(spec 4.1). -/
def permFace (k : CellKind) (f : ℕ) (a : Orient) :
    Pt (cellDim k - 1) → Pt (cellDim k - 1) :=
  match k with
  | .line => fun p => p
  | .triangle => segPerm a.1
  | .quadrilateral => segPerm a.1
  | .tetrahedron => triPerm (orientIndex3 a)
  | .pyramid => shapePerm2 ((faceShapes .pyramid).getD f .vertex) a
  | .wedge => shapePerm2 ((faceShapes .wedge).getD f .vertex) a
  | .hexahedron => quadPerm a

/-- Modelled from the spec: linear interpolation between the two endpoint
coordinates of a line sub-entity (spec 4.2). -/
def segEmbed {n : ℕ} (a b : Pt n) (p : Pt 1) : Pt n :=
  fun i => (1 - p 0) * a i + p 0 * b i

/-- Modelled from the spec: barycentric interpolation of the three vertex
coordinates of a triangular sub-entity (spec 4.2). -/
def triEmbed {n : ℕ} (a b c : Pt n) (p : Pt 2) : Pt n :=
  fun i => (1 - p 0 - p 1) * a i + p 0 * b i + p 1 * c i

/-- Modelled from the spec: bilinear interpolation of the four vertex
coordinates of a quadrilateral sub-entity (spec 4.2). -/
def quadEmbed {n : ℕ} (a b c d : Pt n) (p : Pt 2) : Pt n :=
  fun i => (1 - p 0) * (1 - p 1) * a i + p 0 * (1 - p 1) * b i +
    (1 - p 0) * p 1 * c i + p 0 * p 1 * d i

/-- Modelled from the spec: `FaceEmbedding` — the affine map sending an
(already permuted) face-local coordinate to the cell-local coordinate by
interpolating the face's vertex coordinates (spec 4.2).  The vertex
coordinates and face-to-vertex tables follow the reference-cell
conventions (unit line, square, cube and simplices, triangle-times-interval
wedge, square-based pyramid with apex (0,0,1)); out-of-range face indices
fall back to the last face. -/
def faceEmbed (k : CellKind) (f : ℕ) : Pt (cellDim k - 1) → Pt (cellDim k) :=
  match k with
  | .line => fun _ => if f = 0 then ![0] else ![1]
  | .triangle =>
    match f with
    | 0 => segEmbed ![0, 0] ![1, 0]
    | 1 => segEmbed ![1, 0] ![0, 1]
    | _ => segEmbed ![0, 1] ![0, 0]
  | .quadrilateral =>
    match f with
    | 0 => segEmbed ![0, 0] ![0, 1]
    | 1 => segEmbed ![1, 0] ![1, 1]
    | 2 => segEmbed ![0, 0] ![1, 0]
    | _ => segEmbed ![0, 1] ![1, 1]
  | .tetrahedron =>
    match f with
    | 0 => triEmbed ![0, 0, 0] ![1, 0, 0] ![0, 1, 0]
    | 1 => triEmbed ![1, 0, 0] ![0, 0, 0] ![0, 0, 1]
    | 2 => triEmbed ![0, 0, 0] ![0, 1, 0] ![0, 0, 1]
    | _ => triEmbed ![0, 1, 0] ![1, 0, 0] ![0, 0, 1]
  | .pyramid =>
    match f with
    | 0 => quadEmbed ![-1, -1, 0] ![1, -1, 0] ![-1, 1, 0] ![1, 1, 0]
    | 1 => triEmbed ![-1, -1, 0] ![-1, 1, 0] ![0, 0, 1]
    | 2 => triEmbed ![1, 1, 0] ![1, -1, 0] ![0, 0, 1]
    | 3 => triEmbed ![1, -1, 0] ![-1, -1, 0] ![0, 0, 1]
    | _ => triEmbed ![-1, 1, 0] ![1, 1, 0] ![0, 0, 1]
  | .wedge =>
    match f with
    | 0 => triEmbed ![0, 0, 0] ![1, 0, 0] ![0, 1, 0]
    | 1 => triEmbed ![0, 0, 1] ![1, 0, 1] ![0, 1, 1]
    | 2 => quadEmbed ![0, 0, 0] ![1, 0, 0] ![0, 0, 1] ![1, 0, 1]
    | 3 => quadEmbed ![1, 0, 0] ![0, 1, 0] ![1, 0, 1] ![0, 1, 1]
    | _ => quadEmbed ![0, 1, 0] ![0, 0, 0] ![0, 1, 1] ![0, 0, 1]
  | .hexahedron =>
    match f with
    | 0 => quadEmbed ![0, 0, 0] ![0, 1, 0] ![0, 0, 1] ![0, 1, 1]
    | 1 => quadEmbed ![1, 0, 0] ![1, 1, 0] ![1, 0, 1] ![1, 1, 1]
    | 2 => quadEmbed ![0, 0, 0] ![1, 0, 0] ![0, 0, 1] ![1, 0, 1]
    | 3 => quadEmbed ![0, 1, 0] ![1, 1, 0] ![0, 1, 1] ![1, 1, 1]
    | 4 => quadEmbed ![0, 0, 0] ![1, 0, 0] ![0, 1, 0] ![1, 1, 0]
    | _ => quadEmbed ![0, 0, 1] ![1, 0, 1] ![0, 1, 1] ![1, 1, 1]

/-- Modelled from the spec: `project_to_face(cell_kind, rule, face_index,
orientation)` applies the orientation permutation and then the face
embedding to every point, leaving the weights unchanged (spec 4.3).  The
implementation is missing from src/; only its test qprojector.cc appears. -/
def project_to_face (k : CellKind) (f : ℕ) (a : Orient)
    (rule : Quadrature (cellDim k - 1)) : Quadrature (cellDim k) where
  points := rule.points.map (fun p => faceEmbed k f (permFace k f a p))
  weights := rule.weights

/-- The identity orientation descriptor: all three booleans false, of
enumeration index 0. -/
def identityOrient : Orient := (false, false, false)

theorem permFace_identity (k : CellKind) (f : ℕ) (p : Pt (cellDim k - 1)) :
    permFace k f identityOrient p = p := by
  have hq : ∀ q : Pt 2, quadPerm (false, false, false) q = q := by
    intro q; simp [quadPerm]
  have ht : ∀ q : Pt 2, triPerm (orientIndex3 (false, false, false)) q = q := by
    intro q; simp [triPerm, orientIndex3]
  have hs : ∀ s (q : Pt 2), shapePerm2 s (false, false, false) q = q := by
    intro s q; cases s <;> simp [shapePerm2, hq, ht]
  cases k <;> simp [permFace, segPerm, identityOrient, hq, ht, hs]

/-- C6: under the identity orientation, `project_to_face` returns exactly
the point sequence obtained by applying the face embedding directly to
each unpermuted rule point, with weights unchanged. -/
theorem project_to_face_identity (k : CellKind) (f : ℕ)
    (rule : Quadrature (cellDim k - 1)) :
    project_to_face k f identityOrient rule =
      ⟨rule.points.map (faceEmbed k f), rule.weights⟩ := by
  simp only [project_to_face, permFace_identity]

/-- Modelled from the spec: the canonical enumeration of (face index,
orientation index) pairs of a cell kind — faces in canonical topology
order and, within each face, every valid orientation combination in the
fixed enumeration order (spec 4.3). -/
def facePairs (k : CellKind) : List (ℕ × ℕ) :=
  (List.range (numFaces k)).flatMap
    (fun f => (List.range (variantsOf k f)).map (fun o => (f, o)))

/-- Modelled from the spec: `project_to_all_faces(cell_kind, rule)` emits,
for every (face, orientation) pair in canonical enumeration order, a
contiguous block of `rule.size` points, concatenated with no gaps
(spec 4.3).  The implementation is missing from src/; only its test
qprojector.cc appears. -/
def project_to_all_faces (k : CellKind) (rule : Quadrature (cellDim k - 1)) :
    Quadrature (cellDim k) where
  points := (facePairs k).flatMap
    (fun p => (project_to_face k p.1 (orientOfIndex p.2) rule).points)
  weights := (facePairs k).flatMap
    (fun p => (project_to_face k p.1 (orientOfIndex p.2) rule).weights)

/-- Rank of the (face `f`, orientation index `o`) pair in the canonical
enumeration: the total variant count of all earlier faces plus `o`. -/
def pairRank (k : CellKind) (f o : ℕ) : ℕ :=
  ((variantList k).take f).sum + o

namespace DataSetDescriptor

/-- Modelled from the spec: `DataSetDescriptor::face(cell_kind, face_no,
orientation, flip, rotation, n_quadrature_points)` — the starting offset
of the requested (face, orientation) block of per-face size `nqs` inside
the array produced by `project_to_all_faces` (spec 4.4).  A pure function
of its arguments, with no state. -/
def face (k : CellKind) (f : ℕ) (o fl r : Bool) (nqs : ℕ) : ℕ :=
  nqs * pairRank k f (orientIndex3 (o, fl, r))

end DataSetDescriptor

theorem variantList_length (k : CellKind) :
    (variantList k).length = numFaces k := by
  simp [variantList, numFaces]

theorem getD_variantList (k : CellKind) (f : ℕ) (hf : f < numFaces k) :
    (variantList k).getD f 0 = variantsOf k f := by
  have hfl : f < (faceShapes k).length := hf
  rw [variantList, List.getD_eq_getElem?_getD, List.getElem?_map,
    List.getElem?_eq_getElem hfl]
  simp [variantsOf, List.getD_eq_getElem?_getD, List.getElem?_eq_getElem hfl]

theorem sum_take_succ_nat (l : List ℕ) (f : ℕ) (hf : f < l.length) :
    (l.take (f + 1)).sum = (l.take f).sum + l.getD f 0 := by
  rw [List.take_succ, List.sum_append, List.getD_eq_getElem?_getD,
    List.getElem?_eq_getElem hf]
  simp

theorem sum_take_mono_nat (l : List ℕ) (f g : ℕ) (h : f ≤ g) :
    (l.take f).sum ≤ (l.take g).sum := by
  have h1 : (l.take g).take f = l.take f := by
    rw [List.take_take, min_eq_left h]
  calc (l.take f).sum ≤ (l.take f).sum + ((l.take g).drop f).sum :=
        Nat.le_add_right _ _
    _ = ((l.take g).take f).sum + ((l.take g).drop f).sum := by rw [h1]
    _ = (l.take g).sum := by rw [← List.sum_append, List.take_append_drop]

theorem pairRank_lt_totalPairs (k : CellKind) {f o : ℕ} (hf : f < numFaces k)
    (ho : o < variantsOf k f) : pairRank k f o < totalPairs k := by
  have hlen : f < (variantList k).length := by rw [variantList_length]; exact hf
  have h1 : pairRank k f o < ((variantList k).take (f + 1)).sum := by
    rw [sum_take_succ_nat _ _ hlen, getD_variantList k f hf]
    unfold pairRank; omega
  have h2 : ((variantList k).take (f + 1)).sum ≤ (variantList k).sum := by
    have h3 := sum_take_mono_nat (variantList k) (f + 1) ((variantList k).length) hlen
    rwa [List.take_length] at h3
  unfold totalPairs; omega

theorem pairRank_lt_pairRank (k : CellKind) {f o f' o' : ℕ}
    (hf : f < numFaces k) (ho : o < variantsOf k f) (hff : f < f') :
    pairRank k f o < pairRank k f' o' := by
  have hlen : f < (variantList k).length := by rw [variantList_length]; exact hf
  have h1 : pairRank k f o < ((variantList k).take (f + 1)).sum := by
    rw [sum_take_succ_nat _ _ hlen, getD_variantList k f hf]
    unfold pairRank; omega
  have h2 : ((variantList k).take (f + 1)).sum ≤ ((variantList k).take f').sum :=
    sum_take_mono_nat (variantList k) (f + 1) f' hff
  have h3 : ((variantList k).take f').sum ≤ pairRank k f' o' :=
    Nat.le_add_right _ _
  omega

theorem sum_rank_surj (l : List ℕ) : ∀ r, r < l.sum →
    ∃ f o, f < l.length ∧ o < l.getD f 0 ∧ (l.take f).sum + o = r := by
  induction l with
  | nil => intro r hr; simp at hr
  | cons a t ih =>
    intro r hr
    by_cases hra : r < a
    · exact ⟨0, r, by simp, by simpa using hra, by simp⟩
    · push_neg at hra
      have hr' : r - a < t.sum := by rw [List.sum_cons] at hr; omega
      obtain ⟨f, o, h1, h2, h3⟩ := ih (r - a) hr'
      refine ⟨f + 1, o, by simpa using h1, by simpa using h2, ?_⟩
      rw [List.take_succ_cons, List.sum_cons]
      omega

theorem flatMap_drop_take {α β : Type} (g : α → List β) (n : ℕ) (d : α)
    (hn : ∀ x, (g x).length = n) :
    ∀ (l : List α) (f : ℕ), f < l.length →
      ((l.flatMap g).drop (n * f)).take n = g (l.getD f d) := by
  intro l
  induction l with
  | nil => intro f hf; simp at hf
  | cons a t ih =>
    intro f hf
    cases f with
    | zero =>
      rw [List.flatMap_cons, Nat.mul_zero, List.drop_zero, List.getD_cons_zero,
        ← hn a, List.take_left]
    | succ f' =>
      rw [List.flatMap_cons, List.getD_cons_succ,
        show n * (f' + 1) = (g a).length + n * f' by rw [hn]; ring,
        List.drop_append]
      exact ih f' (by simpa using hf)

theorem flatMap_getD {α β : Type} (g : α → List β) (dA : α) (dB : β) :
    ∀ (l : List α) (f o : ℕ), f < l.length → o < (g (l.getD f dA)).length →
      (l.flatMap g).getD (((l.take f).map (fun x => (g x).length)).sum + o) dB =
        (g (l.getD f dA)).getD o dB := by
  intro l
  induction l with
  | nil => intro f o hf _; simp at hf
  | cons a t ih =>
    intro f o hf ho
    cases f with
    | zero =>
      rw [List.getD_cons_zero] at ho ⊢
      rw [List.flatMap_cons, List.take_zero, List.map_nil, List.sum_nil,
        Nat.zero_add, List.getD_append _ _ _ _ ho]
    | succ f' =>
      rw [List.getD_cons_succ] at ho ⊢
      rw [List.flatMap_cons, List.take_succ_cons, List.map_cons, List.sum_cons,
        Nat.add_assoc, List.getD_eq_getElem?_getD,
        List.getElem?_append_right (Nat.le_add_right _ _), Nat.add_sub_cancel_left,
        ← List.getD_eq_getElem?_getD]
      exact ih f' o (by simpa using hf) ho

theorem variantList_take_range (k : CellKind) : ∀ f, f ≤ numFaces k →
    ((variantList k).take f).sum = ((List.range f).map (variantsOf k)).sum := by
  intro f
  induction f with
  | zero => intro _; simp
  | succ f ih =>
    intro hf
    have hf' : f < numFaces k := hf
    have hlen : f < (variantList k).length := by
      rw [variantList_length]; exact hf'
    rw [sum_take_succ_nat _ _ hlen, getD_variantList k f hf', List.range_succ,
      List.map_append, List.sum_append, ih (le_of_lt hf')]
    simp

theorem facePairs_length (k : CellKind) :
    (facePairs k).length = totalPairs k := by
  rw [facePairs, List.length_flatMap]
  have h2 := variantList_take_range k (numFaces k) le_rfl
  rw [← variantList_length k, List.take_length, variantList_length] at h2
  rw [totalPairs, h2]
  congr 1
  simp [Function.comp_def]

theorem orientOfIndex_orientIndex3 : ∀ a : Orient,
    orientOfIndex (orientIndex3 a) = a := by decide

theorem orientIndex3_orientOfIndex : ∀ i, i < 8 →
    orientIndex3 (orientOfIndex i) = i := by decide

theorem variantsOf_le_8 (k : CellKind) (f : ℕ) : variantsOf k f ≤ 8 := by
  unfold variantsOf
  cases (faceShapes k).getD f .vertex <;> decide

theorem facePairs_getD (k : CellKind) {f o : ℕ} (hf : f < numFaces k)
    (ho : o < variantsOf k f) :
    (facePairs k).getD (pairRank k f o) (0, 0) = (f, o) := by
  have hfr : f < (List.range (numFaces k)).length := by simpa using hf
  have hget : (List.range (numFaces k)).getD f 0 = f := by
    rw [List.getD_eq_getElem?_getD, List.getElem?_range hf]; rfl
  have key := flatMap_getD
    (fun x => (List.range (variantsOf k x)).map (fun o2 => (x, o2))) 0
    ((0 : ℕ), (0 : ℕ)) (List.range (numFaces k)) f o hfr
    (by rw [hget]; simpa using ho)
  rw [hget] at key
  have hidx : (((List.range (numFaces k)).take f).map
      (fun x => ((List.range (variantsOf k x)).map (fun o2 => (x, o2))).length)).sum
      = ((variantList k).take f).sum := by
    rw [List.take_range, min_eq_left (le_of_lt hf),
      variantList_take_range k f (le_of_lt hf)]
    simp
  rw [hidx] at key
  rw [show facePairs k = (List.range (numFaces k)).flatMap
      (fun x => (List.range (variantsOf k x)).map (fun o2 => (x, o2))) from rfl]
  rw [show pairRank k f o = ((variantList k).take f).sum + o from rfl, key,
    List.getD_eq_getElem?_getD, List.getElem?_map, List.getElem?_range ho]
  rfl

theorem project_to_face_size (k : CellKind) (f : ℕ) (a : Orient)
    (rule : Quadrature (cellDim k - 1)) :
    (project_to_face k f a rule).size = rule.size := by
  simp [project_to_face, Quadrature.size]

/-- A one-point 2-d rule with weight 1, used as a concrete input. -/
noncomputable def qOne2 : Quadrature 2 where
  points := [fun _ => 1 / 3]
  weights := [1]

theorem project_to_all_faces_size (k : CellKind)
    (rule : Quadrature (cellDim k - 1)) :
    (project_to_all_faces k rule).size = rule.size * totalPairs k := by
  simp only [project_to_all_faces, Quadrature.size, List.length_flatMap,
    Function.comp_def, project_to_face, List.length_map]
  rw [List.map_const', List.sum_replicate, smul_eq_mul, facePairs_length,
    Nat.mul_comm]

/-- C5: the face offset computation is deterministic and stateless — any
two invocations of `DataSetDescriptor.face` with identical arguments
return equal integers; the result is a pure function of the six arguments
with no dependence on call order or shared mutable state. -/
theorem dsd_face_deterministic (k k' : CellKind) (f f' : ℕ)
    (o fl r o' fl' r' : Bool) (n n' : ℕ)
    (hk : k = k') (hf : f = f') (ho : o = o') (hfl : fl = fl')
    (hr : r = r') (hn : n = n') :
    DataSetDescriptor.face k f o fl r n =
      DataSetDescriptor.face k' f' o' fl' r' n' := by
  subst hk; subst hf; subst ho; subst hfl; subst hr; subst hn; rfl

/-- Witness for C5 at concrete arguments. -/
theorem dsd_face_deterministic_witness :
    DataSetDescriptor.face .hexahedron 2 true false false 4 =
      DataSetDescriptor.face .hexahedron 2 true false false 4 :=
  dsd_face_deterministic .hexahedron .hexahedron 2 2 true false false
    true false false 4 4 rfl rfl rfl rfl rfl rfl

/-- C4: for every cell kind, valid face index and valid orientation
descriptor, the DataSetDescriptor face offset equals the sum of `nqs` over
all (face, orientation) pairs preceding the requested pair in the
canonical enumeration order (orientation bit fastest, then flip, then
rotation); the pair of that rank is the requested pair; the offset reduces
to pair-index times `nqs` when all faces share one orientation-variant
count; and the block of `rule.size` points starting at the offset inside
`project_to_all_faces` is exactly the projection of the rule onto that
face under that orientation. -/
theorem dsd_face_offset_correct (k : CellKind) (f : ℕ) (a : Orient)
    (rule : Quadrature (cellDim k - 1)) (hf : f < numFaces k)
    (ho : orientIndex3 a < variantsOf k f) :
    (∀ nqs : ℕ, DataSetDescriptor.face k f a.1 a.2.1 a.2.2 nqs =
      (((facePairs k).take (pairRank k f (orientIndex3 a))).map
        (fun _ => nqs)).sum) ∧
    (facePairs k).getD (pairRank k f (orientIndex3 a)) (0, 0) =
      (f, orientIndex3 a) ∧
    (∀ v nqs : ℕ, variantList k = List.replicate (numFaces k) v →
      DataSetDescriptor.face k f a.1 a.2.1 a.2.2 nqs =
        (f * v + orientIndex3 a) * nqs) ∧
    ((project_to_all_faces k rule).points.drop
        (DataSetDescriptor.face k f a.1 a.2.1 a.2.2 rule.size)).take rule.size =
      (project_to_face k f a rule).points := by
  have hrank : pairRank k f (orientIndex3 a) < totalPairs k :=
    pairRank_lt_totalPairs k hf ho
  refine ⟨?_, facePairs_getD k hf ho, ?_, ?_⟩
  · intro nqs
    have htake : ((facePairs k).take (pairRank k f (orientIndex3 a))).length =
        pairRank k f (orientIndex3 a) := by
      rw [List.length_take, facePairs_length]
      omega
    rw [List.map_const', List.sum_replicate, htake, smul_eq_mul]
    show nqs * pairRank k f (orientIndex3 a) = _
    ring
  · intro v nqs hrep
    show nqs * pairRank k f (orientIndex3 a) = _
    unfold pairRank
    rw [hrep, List.take_replicate, List.sum_replicate,
      min_eq_left (le_of_lt hf), smul_eq_mul]
    ring
  · have hsz : ∀ p : ℕ × ℕ,
        ((project_to_face k p.1 (orientOfIndex p.2) rule).points).length =
          rule.size := by
      intro p; simp [project_to_face, Quadrature.size]
    have hfr : pairRank k f (orientIndex3 a) < (facePairs k).length := by
      rw [facePairs_length]; exact hrank
    have key := flatMap_drop_take
      (fun p : ℕ × ℕ => (project_to_face k p.1 (orientOfIndex p.2) rule).points)
      rule.size ((0 : ℕ), (0 : ℕ)) hsz (facePairs k)
      (pairRank k f (orientIndex3 a)) hfr
    rw [facePairs_getD k hf ho] at key
    simp only [orientOfIndex_orientIndex3] at key
    exact key

/-- Witness for C4: hexahedron, face 1, orientation (true, false, false),
one-point rule. -/
theorem dsd_face_offset_correct_witness :
    1 < numFaces .hexahedron ∧
    orientIndex3 (true, false, false) < variantsOf .hexahedron 1 ∧
    ((project_to_all_faces .hexahedron qOne2).points.drop
        (DataSetDescriptor.face .hexahedron 1 true false false qOne2.size)).take
        qOne2.size =
      (project_to_face .hexahedron 1 (true, false, false) qOne2).points :=
  ⟨by decide, by decide,
    (dsd_face_offset_correct .hexahedron 1 (true, false, false) qOne2
      (by decide) (by decide)).2.2.2⟩

/-- C3 counterexample: the wedge has two triangular faces with 6
orientation variants and three quadrilateral faces with 8, so a rule of
size 1 projected to all faces yields 36 points, which is not
size × (number of faces) × V for any single variant count V. -/
theorem project_to_all_faces_size_wedge :
    (project_to_all_faces .wedge qOne2).size = 36 ∧ qOne2.size = 1 ∧
    numFaces .wedge = 5 ∧
    ¬ ∃ V : ℕ, (project_to_all_faces .wedge qOne2).size =
        qOne2.size * numFaces .wedge * V := by
  have h1 : (project_to_all_faces .wedge qOne2).size = 36 := by decide
  have h2 : qOne2.size = 1 := rfl
  have h3 : numFaces .wedge = 5 := rfl
  refine ⟨h1, h2, h3, ?_⟩
  rintro ⟨V, hV⟩
  rw [h1, h2, h3] at hV
  omega

/-- C3 (amended): for every cell kind and rule, the `project_to_all_faces`
result has rule.size times (the sum over faces of their orientation-variant
counts) points — which equals rule.size × faces × V exactly when all faces
share one variant count V — and the DataSetDescriptor blocks of distinct
valid (face, orientation) pairs are pairwise disjoint contiguous ranges
whose union is [0, total size). -/
theorem project_to_all_faces_partition (k : CellKind)
    (rule : Quadrature (cellDim k - 1)) :
    (project_to_all_faces k rule).size = rule.size * totalPairs k ∧
    (∀ v : ℕ, variantList k = List.replicate (numFaces k) v →
      (project_to_all_faces k rule).size = rule.size * (numFaces k * v)) ∧
    (∀ f a f' a', f < numFaces k → orientIndex3 a < variantsOf k f →
      f' < numFaces k → orientIndex3 a' < variantsOf k f' →
      (f, orientIndex3 a) ≠ (f', orientIndex3 a') →
      ∀ m, DataSetDescriptor.face k f a.1 a.2.1 a.2.2 rule.size ≤ m →
        m < DataSetDescriptor.face k f a.1 a.2.1 a.2.2 rule.size + rule.size →
        ¬ (DataSetDescriptor.face k f' a'.1 a'.2.1 a'.2.2 rule.size ≤ m ∧
           m < DataSetDescriptor.face k f' a'.1 a'.2.1 a'.2.2 rule.size +
             rule.size)) ∧
    (∀ m, m < (project_to_all_faces k rule).size →
      ∃ f a, f < numFaces k ∧ orientIndex3 a < variantsOf k f ∧
        DataSetDescriptor.face k f a.1 a.2.1 a.2.2 rule.size ≤ m ∧
        m < DataSetDescriptor.face k f a.1 a.2.1 a.2.2 rule.size + rule.size) := by
  have hsz := project_to_all_faces_size k rule
  refine ⟨hsz, ?_, ?_, ?_⟩
  · intro v hrep
    rw [hsz, totalPairs, hrep, List.sum_replicate, smul_eq_mul]
  · intro f a f' a' hf ho hf' ho' hne m h1 h2
    rintro ⟨h3, h4⟩
    have e1 : DataSetDescriptor.face k f a.1 a.2.1 a.2.2 rule.size =
        rule.size * pairRank k f (orientIndex3 a) := rfl
    have e2 : DataSetDescriptor.face k f' a'.1 a'.2.1 a'.2.2 rule.size =
        rule.size * pairRank k f' (orientIndex3 a') := rfl
    rw [e1] at h1 h2
    rw [e2] at h3 h4
    rcases Nat.lt_trichotomy f f' with hlt | heq | hgt
    · have hr : pairRank k f (orientIndex3 a) < pairRank k f' (orientIndex3 a') :=
        pairRank_lt_pairRank k hf ho hlt
      have h5 : rule.size * (pairRank k f (orientIndex3 a) + 1) ≤
          rule.size * pairRank k f' (orientIndex3 a') :=
        Nat.mul_le_mul_left _ hr
      rw [Nat.mul_add, Nat.mul_one] at h5
      exact Nat.lt_irrefl m (lt_of_lt_of_le (lt_of_lt_of_le h2 h5) h3)
    · subst heq
      have hoo : orientIndex3 a ≠ orientIndex3 a' := by
        intro hEq; exact hne (by rw [hEq])
      rcases Nat.lt_or_ge (orientIndex3 a) (orientIndex3 a') with holt | hoge
      · have hr : pairRank k f (orientIndex3 a) + 1 ≤
            pairRank k f (orientIndex3 a') := by
          unfold pairRank; omega
        have h5 : rule.size * (pairRank k f (orientIndex3 a) + 1) ≤
            rule.size * pairRank k f (orientIndex3 a') :=
          Nat.mul_le_mul_left _ hr
        rw [Nat.mul_add, Nat.mul_one] at h5
        exact Nat.lt_irrefl m (lt_of_lt_of_le (lt_of_lt_of_le h2 h5) h3)
      · have hr : pairRank k f (orientIndex3 a') + 1 ≤
            pairRank k f (orientIndex3 a) := by
          unfold pairRank; omega
        have h5 : rule.size * (pairRank k f (orientIndex3 a') + 1) ≤
            rule.size * pairRank k f (orientIndex3 a) :=
          Nat.mul_le_mul_left _ hr
        rw [Nat.mul_add, Nat.mul_one] at h5
        exact Nat.lt_irrefl m (lt_of_lt_of_le (lt_of_lt_of_le h4 h5) h1)
    · have hr : pairRank k f' (orientIndex3 a') < pairRank k f (orientIndex3 a) :=
        pairRank_lt_pairRank k hf' ho' hgt
      have h5 : rule.size * (pairRank k f' (orientIndex3 a') + 1) ≤
          rule.size * pairRank k f (orientIndex3 a) :=
        Nat.mul_le_mul_left _ hr
      rw [Nat.mul_add, Nat.mul_one] at h5
      exact Nat.lt_irrefl m (lt_of_lt_of_le (lt_of_lt_of_le h4 h5) h1)
  · intro m hm
    rw [hsz] at hm
    have hn : 0 < rule.size := by
      rcases Nat.eq_zero_or_pos rule.size with h0 | h0
      · rw [h0, Nat.zero_mul] at hm; exact absurd hm (Nat.not_lt_zero m)
      · exact h0
    have hr : m / rule.size < totalPairs k := Nat.div_lt_of_lt_mul hm
    obtain ⟨f, o, h1, h2, h3⟩ :=
      sum_rank_surj (variantList k) (m / rule.size) hr
    have hfN : f < numFaces k := by rwa [variantList_length] at h1
    have hoV : o < variantsOf k f := by rwa [getD_variantList k f hfN] at h2
    have ho8 : o < 8 := lt_of_lt_of_le hoV (variantsOf_le_8 k f)
    have hoo : orientIndex3 (orientOfIndex o) = o :=
      orientIndex3_orientOfIndex o ho8
    have hOff : DataSetDescriptor.face k f (orientOfIndex o).1
        (orientOfIndex o).2.1 (orientOfIndex o).2.2 rule.size =
        rule.size * (m / rule.size) := by
      show rule.size * pairRank k f (orientIndex3 (orientOfIndex o)) = _
      rw [hoo]
      unfold pairRank
      rw [h3]
    refine ⟨f, orientOfIndex o, hfN, by rw [hoo]; exact hoV, ?_, ?_⟩
    · rw [hOff]
      rw [Nat.mul_comm]
      exact Nat.div_mul_le_self m rule.size
    · rw [hOff]
      calc m = rule.size * (m / rule.size) + m % rule.size :=
            (Nat.div_add_mod m rule.size).symm
        _ < rule.size * (m / rule.size) + rule.size :=
            Nat.add_lt_add_left (Nat.mod_lt m hn) _

/-- Witness for C3 (amended): two distinct blocks on the hexahedron are
disjoint at the concrete position 0. -/
theorem project_to_all_faces_partition_witness :
    0 < numFaces CellKind.hexahedron ∧
    orientIndex3 (false, false, false) < variantsOf .hexahedron 0 ∧
    orientIndex3 (true, false, false) < variantsOf .hexahedron 0 ∧
    ((0 : ℕ), orientIndex3 (false, false, false)) ≠
      (0, orientIndex3 (true, false, false)) ∧
    DataSetDescriptor.face .hexahedron 0 false false false qOne2.size ≤ 0 ∧
    0 < DataSetDescriptor.face .hexahedron 0 false false false qOne2.size +
      qOne2.size ∧
    ¬ (DataSetDescriptor.face .hexahedron 0 true false false qOne2.size ≤ 0 ∧
       0 < DataSetDescriptor.face .hexahedron 0 true false false qOne2.size +
         qOne2.size) :=
  ⟨by decide, by decide, by decide, by decide, by decide, by decide,
    (project_to_all_faces_partition .hexahedron qOne2).2.2.1 0
      (false, false, false) 0 (true, false, false) (by decide) (by decide)
      (by decide) (by decide) (by decide) 0 (by decide) (by decide)⟩

/-- Modelled from the spec: the error kinds of the projection subsystem —
DimensionMismatch, InvalidIndex, InvalidOrientation (spec section 7). -/
inductive ProjError
  | dimensionMismatch
  | invalidIndex
  | invalidOrientation
deriving DecidableEq

/-- Modelled from the spec: precondition-checked entry point for
`project_to_face` (spec sections 6 and 7): the input dimensionality, the
face index and the orientation combination are validated before any
computation, and a violation is reported immediately to the caller as an
error value, with no partial result. -/
def project_to_face_checked (k : CellKind) (d : ℕ) (rule : Quadrature d)
    (f : ℕ) (a : Orient) : Except ProjError (Quadrature (cellDim k)) :=
  if hd : d = cellDim k - 1 then
    if f < numFaces k then
      if orientIndex3 a < variantsOf k f then
        .ok (project_to_face k f a (hd ▸ rule))
      else .error .invalidOrientation
    else .error .invalidIndex
  else .error .dimensionMismatch

/-- The empty 1-d quadrature rule. -/
def qEmpty1 : Quadrature 1 where
  points := []
  weights := []

/-- The empty 2-d quadrature rule. -/
def qEmpty2 : Quadrature 2 where
  points := []
  weights := []

/-- C7: an input rule of size 0 yields a result quadrature of size 0 for
every projection operation — project_to_line, project_to_face,
project_to_all_faces — and, for valid indices, the checked projection
still returns a result rather than an error. -/
theorem zero_size_rule (k : CellKind) (d : ℕ) (p1 p2 : Pt d) (f : ℕ)
    (a : Orient) (rule0 : Quadrature 1) (ruleF : Quadrature (cellDim k - 1))
    (h0 : rule0.size = 0) (hF : ruleF.size = 0) :
    (project_to_line k d rule0 p1 p2).size = 0 ∧
    (project_to_face k f a ruleF).size = 0 ∧
    (project_to_all_faces k ruleF).size = 0 ∧
    (f < numFaces k → orientIndex3 a < variantsOf k f →
      project_to_face_checked k (cellDim k - 1) ruleF f a =
        .ok (project_to_face k f a ruleF)) := by
  refine ⟨?_, ?_, ?_, ?_⟩
  · simpa [project_to_line, Quadrature.size] using h0
  · simpa [project_to_face, Quadrature.size] using hF
  · rw [project_to_all_faces_size, hF, Nat.zero_mul]
  · intro h1 h2
    simp [project_to_face_checked, h1, h2]

/-- Witness for C7: empty rules on the hexahedron. -/
theorem zero_size_rule_witness :
    qEmpty1.size = 0 ∧ qEmpty2.size = 0 ∧
    (project_to_line .hexahedron 3 qEmpty1 (fun _ => 0) (fun _ => 1)).size = 0 ∧
    project_to_face_checked .hexahedron (cellDim .hexahedron - 1) qEmpty2 0
        (false, false, false) =
      .ok (project_to_face .hexahedron 0 (false, false, false) qEmpty2) :=
  ⟨rfl, rfl,
    (zero_size_rule .hexahedron 3 (fun _ => 0) (fun _ => 1) 0
      (false, false, false) qEmpty1 qEmpty2 rfl rfl).1,
    (zero_size_rule .hexahedron 3 (fun _ => 0) (fun _ => 1) 0
      (false, false, false) qEmpty1 qEmpty2 rfl rfl).2.2.2 (by decide)
      (by decide)⟩

/-- C8: every precondition violation — mismatched input dimensionality,
out-of-range face index, or an orientation combination undefined for the
face shape (such as quadrilateral-only combinations on a triangular
face) — makes the checked projection return the corresponding error value
with no partial result, while fully valid inputs return the projected
quadrature; the checks precede any computation on the rule. -/
theorem project_to_face_checked_errors (k : CellKind) (d : ℕ)
    (rule : Quadrature d) (f : ℕ) (a : Orient) :
    (d ≠ cellDim k - 1 →
      project_to_face_checked k d rule f a = .error .dimensionMismatch) ∧
    (d = cellDim k - 1 → numFaces k ≤ f →
      project_to_face_checked k d rule f a = .error .invalidIndex) ∧
    (d = cellDim k - 1 → f < numFaces k → variantsOf k f ≤ orientIndex3 a →
      project_to_face_checked k d rule f a = .error .invalidOrientation) ∧
    (∀ hd : d = cellDim k - 1, f < numFaces k → orientIndex3 a < variantsOf k f →
      project_to_face_checked k d rule f a =
        .ok (project_to_face k f a (hd ▸ rule))) := by
  refine ⟨?_, ?_, ?_, ?_⟩
  · intro h
    simp [project_to_face_checked, h]
  · intro hd h
    subst hd
    simp [project_to_face_checked, Nat.not_lt.mpr h]
  · intro hd h1 h2
    subst hd
    simp [project_to_face_checked, h1, Nat.not_lt.mpr h2]
  · intro hd h1 h2
    subst hd
    simp [project_to_face_checked, h1, h2]

/-- Witness for C8: a quadrilateral-only orientation combination (index 6)
requested on the triangular face 0 of a tetrahedron is rejected as
InvalidOrientation. -/
theorem project_to_face_checked_errors_witness :
    (2 : ℕ) = cellDim .tetrahedron - 1 ∧ 0 < numFaces .tetrahedron ∧
    variantsOf .tetrahedron 0 ≤ orientIndex3 (false, true, true) ∧
    project_to_face_checked .tetrahedron 2 qOne2 0 (false, true, true) =
      .error .invalidOrientation :=
  ⟨rfl, by decide, by decide,
    (project_to_face_checked_errors .tetrahedron 2 qOne2 0
      (false, true, true)).2.2.1 rfl (by decide) (by decide)⟩

namespace LocalIntegrators

namespace Divergence

/-- Local matrices indexed by test and trial degrees of freedom, as
FullMatrix of double in the source; scalars are modelled as exact
rationals. -/
abbrev Mat (t n : ℕ) := Fin t → Fin n → ℚ

/-- Local residual vectors, as Vector of number in the source. -/
abbrev Vec (t : ℕ) := Fin t → ℚ

/-- The single in-place update `M(i,j) += c` of a local matrix. -/
def addAt {t n : ℕ} (M : Mat t n) (i : Fin t) (j : Fin n) (c : ℚ) : Mat t n :=
  fun i' j' => if i' = i ∧ j' = j then M i' j' + c else M i' j'

/-- The single in-place update `v(i) += c` of a local vector. -/
def addAtV {t : ℕ} (v : Vec t) (i : Fin t) (c : ℚ) : Vec t :=
  fun i' => if i' = i then v i' + c else v i'

/-- Sequential execution, in program order, of a list of `+=` updates on a
matrix; a `-=` update is recorded as adding a negated coefficient. -/
def applyUpdates {t n : ℕ} (M : Mat t n)
    (us : List (Fin t × Fin n × ℚ)) : Mat t n :=
  us.foldl (fun A u => addAt A u.1 u.2.1 u.2.2) M

/-- Sequential execution, in program order, of a list of `+=` updates on a
vector. -/
def applyUpdatesV {t : ℕ} (v : Vec t) (us : List (Fin t × ℚ)) : Vec t :=
  us.foldl (fun A u => addAtV A u.1 u.2) v

theorem addAt_eq_add {t n : ℕ} (M : Mat t n) (i : Fin t) (j : Fin n) (c : ℚ)
    (i' : Fin t) (j' : Fin n) :
    addAt M i j c i' j' = M i' j' + (if i' = i ∧ j' = j then c else 0) := by
  unfold addAt
  split <;> simp

theorem addAtV_eq_add {t : ℕ} (v : Vec t) (i : Fin t) (c : ℚ) (i' : Fin t) :
    addAtV v i c i' = v i' + (if i' = i then c else 0) := by
  unfold addAtV
  split <;> simp

theorem applyUpdates_frame {t n : ℕ} (us : List (Fin t × Fin n × ℚ)) :
    ∀ (M : Mat t n) (i : Fin t) (j : Fin n),
      applyUpdates M us i j = M i j + applyUpdates 0 us i j := by
  induction us with
  | nil => intro M i j; simp [applyUpdates]
  | cons u us ih =>
    intro M i j
    show applyUpdates (addAt M u.1 u.2.1 u.2.2) us i j = _ +
      applyUpdates (addAt 0 u.1 u.2.1 u.2.2) us i j
    rw [ih (addAt M u.1 u.2.1 u.2.2) i j, ih (addAt 0 u.1 u.2.1 u.2.2) i j,
      addAt_eq_add, addAt_eq_add]
    simp only [Pi.zero_apply]
    ring

theorem applyUpdatesV_frame {t : ℕ} (us : List (Fin t × ℚ)) :
    ∀ (v : Vec t) (i : Fin t),
      applyUpdatesV v us i = v i + applyUpdatesV 0 us i := by
  induction us with
  | nil => intro v i; simp [applyUpdatesV]
  | cons u us ih =>
    intro v i
    show applyUpdatesV (addAtV v u.1 u.2) us i = _ +
      applyUpdatesV (addAtV 0 u.1 u.2) us i
    rw [ih (addAtV v u.1 u.2) i, ih (addAtV 0 u.1 u.2) i,
      addAtV_eq_add, addAtV_eq_add]
    simp only [Pi.zero_apply]
    ring

theorem applyUpdates_zero_coeff {t n : ℕ} :
    ∀ us : List (Fin t × Fin n × ℚ), (∀ u ∈ us, u.2.2 = 0) →
      ∀ M : Mat t n, applyUpdates M us = M := by
  intro us
  induction us with
  | nil => intro _ M; rfl
  | cons u us ih =>
    intro h M
    have hu : u.2.2 = 0 := h u (List.mem_cons_self u us)
    have ha : addAt M u.1 u.2.1 u.2.2 = M := by
      funext i' j'
      rw [addAt_eq_add, hu]
      simp
    show applyUpdates (addAt M u.1 u.2.1 u.2.2) us = M
    rw [ha]
    exact ih (fun v hv => h v (List.mem_cons_of_mem u hv)) M

theorem applyUpdatesV_zero_coeff {t : ℕ} :
    ∀ us : List (Fin t × ℚ), (∀ u ∈ us, u.2 = 0) →
      ∀ v : Vec t, applyUpdatesV v us = v := by
  intro us
  induction us with
  | nil => intro _ v; rfl
  | cons u us ih =>
    intro h v
    have hu : u.2 = 0 := h u (List.mem_cons_self u us)
    have ha : addAtV v u.1 u.2 = v := by
      funext i'
      rw [addAtV_eq_add, hu]
      simp
    show applyUpdatesV (addAtV v u.1 u.2) us = v
    rw [ha]
    exact ih (fun w hw => h w (List.mem_cons_of_mem u hw)) v

theorem foldl_add_eq {α : Type} (g : α → ℚ) :
    ∀ (l : List α) (a : ℚ),
      l.foldl (fun acc x => acc + g x) a = a + (l.map g).sum := by
  intro l
  induction l with
  | nil => intro a; simp
  | cons b l ih =>
    intro a
    rw [List.foldl_cons, ih (a + g b), List.map_cons, List.sum_cons]
    ring

/-- Translation of LocalIntegrators::Divergence::norm (divergence.h,
lines 469 to 486): starting from zero, for each quadrature point k the
divergence is accumulated starting from Du[0][k][0] and adding Du[d][k][d]
for d = 1 .. dim-1, then result += div * div * JxW(k).  The code indexes
Du[0] unconditionally, so the dimension is written dim + 1. -/
def norm {dim nq : ℕ} (JxW : Fin nq → ℚ)
    (Du : Fin (dim + 1) → Fin nq → Fin (dim + 1) → ℚ) : ℚ :=
  (List.finRange nq).foldl
    (fun result k =>
      let div := ((List.finRange (dim + 1)).drop 1).foldl
        (fun a d => a + Du d k d) (Du 0 k 0)
      result + div * div * JxW k) 0

/-- Concrete instance of `norm`: one quadrature point with unit weight and
a field with divergence 2, giving result 4 while the L2 norm is 2. -/
def normEx : ℚ :=
  norm (fun _ : Fin 1 => 1) (fun (_ : Fin 2) (_ : Fin 1) (_ : Fin 2) => (1 : ℚ))

/-- C9: `LocalIntegrators.Divergence.norm` returns the square of the
L2 norm of the divergence — the sum over quadrature points of
(sum over d of Du[d][k][d]) squared times JxW(k) — with no square root
taken, so on the concrete input with divergence 2 it returns 4, which
differs from the L2 norm 2. -/
theorem norm_is_squared_l2 :
    (∀ (dim nq : ℕ) (JxW : Fin nq → ℚ)
      (Du : Fin (dim + 1) → Fin nq → Fin (dim + 1) → ℚ),
      norm JxW Du = ∑ k, (∑ d, Du d k d) ^ 2 * JxW k) ∧
    normEx = 4 ∧ Real.sqrt ((normEx : ℚ) : ℝ) = 2 ∧
    ((normEx : ℚ) : ℝ) ≠ Real.sqrt ((normEx : ℚ) : ℝ) := by
  have hmain : ∀ (dim nq : ℕ) (JxW : Fin nq → ℚ)
      (Du : Fin (dim + 1) → Fin nq → Fin (dim + 1) → ℚ),
      norm JxW Du = ∑ k, (∑ d, Du d k d) ^ 2 * JxW k := by
    intro dim nq JxW Du
    have hdiv : ∀ k : Fin nq,
        ((List.finRange (dim + 1)).drop 1).foldl
          (fun a d => a + Du d k d) (Du 0 k 0) = ∑ d, Du d k d := by
      intro k
      rw [List.finRange_succ, List.drop_one, List.tail_cons,
        foldl_add_eq (fun d => Du d k d), List.map_map, Fin.sum_univ_succ,
        Fin.sum_univ_def]
      rfl
    unfold norm
    simp only [hdiv]
    rw [foldl_add_eq (fun k => (∑ d, Du d k d) * (∑ d, Du d k d) * JxW k),
      Fin.sum_univ_def, zero_add]
    have hfun : (fun k : Fin nq => (∑ d, Du d k d) * (∑ d, Du d k d) * JxW k) =
        (fun k : Fin nq => (∑ d, Du d k d) ^ 2 * JxW k) := by
      funext k
      ring
    rw [hfun]
  have hex : normEx = 4 := by
    rw [normEx, hmain]
    simp [Fin.sum_univ_two, Fin.sum_univ_one]
    norm_num
  refine ⟨hmain, hex, ?_, ?_⟩
  · rw [hex]
    norm_num
    rw [show ((4 : ℝ)) = 2 ^ 2 by norm_num, Real.sqrt_sq (by norm_num)]
  · rw [hex]
    norm_num
    rw [show ((4 : ℝ)) = 2 ^ 2 by norm_num, Real.sqrt_sq (by norm_num)]
    norm_num

/-- Translation of LocalIntegrators::Divergence::cell_matrix (divergence.h,
lines 51 to 79): for each quadrature point k, test dof i, component d and
trial dof j, in program order, `M(i,j) += dx * du * vv` with
`dx = JxW(k) * factor`, `du = shape_grad_component(j,k,d)[d]` and
`vv = fetest.shape_value(i,k)`. -/
def cell_matrix {nq t n dim : ℕ} (M : Mat t n) (JxW : Fin nq → ℚ)
    (shape_grad_component : Fin n → Fin nq → Fin dim → Fin dim → ℚ)
    (test_value : Fin t → Fin nq → ℚ) (factor : ℚ) : Mat t n :=
  applyUpdates M <|
    (List.finRange nq).flatMap fun k =>
      (List.finRange t).flatMap fun i =>
        (List.finRange dim).flatMap fun d =>
          (List.finRange n).map fun j =>
            (i, j, (JxW k * factor) * shape_grad_component j k d d *
              test_value i k)

/-- Translation of the strong-form LocalIntegrators::Divergence::cell_residual
(divergence.h, lines 90 to 111): `result(i) += dx * input[d][k][d] *
fetest.shape_value(i,k)` with `dx = factor * JxW(k)`, looping k, i, d. -/
def cell_residual {nq t dim : ℕ} (result : Vec t) (JxW : Fin nq → ℚ)
    (input : Fin dim → Fin nq → Fin dim → ℚ)
    (test_value : Fin t → Fin nq → ℚ) (factor : ℚ) : Vec t :=
  applyUpdatesV result <|
    (List.finRange nq).flatMap fun k =>
      (List.finRange t).flatMap fun i =>
        (List.finRange dim).map fun d =>
          (i, (factor * JxW k) * input d k d * test_value i k)

/-- Translation of the weak-form LocalIntegrators::Divergence::cell_residual
(divergence.h, lines 123 to 144): `result(i) -= dx * input[d][k] *
fetest.shape_grad(i,k)[d]` with `dx = factor * JxW(k)`, looping k, i, d. -/
def cell_residual_weak {nq t dim : ℕ} (result : Vec t) (JxW : Fin nq → ℚ)
    (input : Fin dim → Fin nq → ℚ)
    (test_grad : Fin t → Fin nq → Fin dim → ℚ) (factor : ℚ) : Vec t :=
  applyUpdatesV result <|
    (List.finRange nq).flatMap fun k =>
      (List.finRange t).flatMap fun i =>
        (List.finRange dim).map fun d =>
          (i, -((factor * JxW k) * input d k * test_grad i k d))

/-- Translation of LocalIntegrators::Divergence::gradient_matrix
(divergence.h, lines 154 to 183): `M(i,j) += dx * vv * Du[d]` with
`dx = JxW(k) * factor`, `vv = fetest.shape_value_component(i,k,d)` and
`Du = fe.shape_grad(j,k)`, looping k, d, i, j. -/
def gradient_matrix {nq t n dim : ℕ} (M : Mat t n) (JxW : Fin nq → ℚ)
    (shape_grad : Fin n → Fin nq → Fin dim → ℚ)
    (test_value_component : Fin t → Fin nq → Fin dim → ℚ)
    (factor : ℚ) : Mat t n :=
  applyUpdates M <|
    (List.finRange nq).flatMap fun k =>
      (List.finRange dim).flatMap fun d =>
        (List.finRange t).flatMap fun i =>
          (List.finRange n).map fun j =>
            (i, j, (JxW k * factor) * test_value_component i k d *
              shape_grad j k d)

/-- Translation of the strong-form
LocalIntegrators::Divergence::gradient_residual (divergence.h, lines 194
to 216): `result(i) += dx * input[k][d] *
fetest.shape_value_component(i,k,d)` with `dx = factor * JxW(k)`,
looping k, i, d. -/
def gradient_residual {nq t dim : ℕ} (result : Vec t) (JxW : Fin nq → ℚ)
    (input : Fin nq → Fin dim → ℚ)
    (test_value_component : Fin t → Fin nq → Fin dim → ℚ)
    (factor : ℚ) : Vec t :=
  applyUpdatesV result <|
    (List.finRange nq).flatMap fun k =>
      (List.finRange t).flatMap fun i =>
        (List.finRange dim).map fun d =>
          (i, (factor * JxW k) * input k d * test_value_component i k d)

/-- Translation of the weak-form
LocalIntegrators::Divergence::gradient_residual (divergence.h, lines 227
to 249): `result(i) -= dx * input[k] *
fetest.shape_grad_component(i,k,d)[d]` with `dx = factor * JxW(k)`,
looping k, i, d. -/
def gradient_residual_weak {nq t dim : ℕ} (result : Vec t)
    (JxW : Fin nq → ℚ) (input : Fin nq → ℚ)
    (test_grad_component : Fin t → Fin nq → Fin dim → Fin dim → ℚ)
    (factor : ℚ) : Vec t :=
  applyUpdatesV result <|
    (List.finRange nq).flatMap fun k =>
      (List.finRange t).flatMap fun i =>
        (List.finRange dim).map fun d =>
          (i, -((factor * JxW k) * input k * test_grad_component i k d d))

/-- Translation of the single-matrix
LocalIntegrators::Divergence::u_dot_n_matrix (divergence.h, lines 256 to
280): `M(i,j) += ndx[d] * fe.shape_value_component(j,k,d) *
fetest.shape_value(i,k)` with `ndx = factor * JxW(k) * normal(k)`,
looping k, i, j, d. -/
def u_dot_n_matrix {nq t n dim : ℕ} (M : Mat t n) (JxW : Fin nq → ℚ)
    (normal : Fin nq → Fin dim → ℚ)
    (shape_value_component : Fin n → Fin nq → Fin dim → ℚ)
    (test_value : Fin t → Fin nq → ℚ) (factor : ℚ) : Mat t n :=
  applyUpdates M <|
    (List.finRange nq).flatMap fun k =>
      (List.finRange t).flatMap fun i =>
        (List.finRange n).flatMap fun j =>
          (List.finRange dim).map fun d =>
            (i, j, (factor * JxW k * normal k d) *
              shape_value_component j k d * test_value i k)

/-- Translation of LocalIntegrators::Divergence::u_dot_n_residual
(divergence.h, lines 289 to 312): `result(i) += ndx[d] *
fetest.shape_value(i,k) * data[d][k]` with
`ndx = factor * normal(k) * JxW(k)`, looping k, i, d. -/
def u_dot_n_residual {nq t dim : ℕ} (result : Vec t) (JxW : Fin nq → ℚ)
    (normal : Fin nq → Fin dim → ℚ) (test_value : Fin t → Fin nq → ℚ)
    (data : Fin dim → Fin nq → ℚ) (factor : ℚ) : Vec t :=
  applyUpdatesV result <|
    (List.finRange nq).flatMap fun k =>
      (List.finRange t).flatMap fun i =>
        (List.finRange dim).map fun d =>
          (i, (factor * normal k d * JxW k) * test_value i k * data d k)

/-- Translation of LocalIntegrators::Divergence::u_times_n_residual
(divergence.h, lines 321 to 344): `result(i) += ndx[d] *
fetest.shape_value_component(i,k,d) * data[k]` with
`ndx = factor * normal(k) * JxW(k)`, looping k, i, d. -/
def u_times_n_residual {nq t dim : ℕ} (result : Vec t) (JxW : Fin nq → ℚ)
    (normal : Fin nq → Fin dim → ℚ)
    (test_value_component : Fin t → Fin nq → Fin dim → ℚ)
    (data : Fin nq → ℚ) (factor : ℚ) : Vec t :=
  applyUpdatesV result <|
    (List.finRange nq).flatMap fun k =>
      (List.finRange t).flatMap fun i =>
        (List.finRange dim).map fun d =>
          (i, (factor * normal k d * JxW k) * test_value_component i k d *
            data k)

/-- Translation of the four-matrix interior-face overload of
LocalIntegrators::Divergence::u_dot_n_matrix (divergence.h, lines 355 to
403): with `dx = factor * JxW(k)`,
`un1 = fe1.shape_value_component(j,k,d) * fe1.normal_vector(k)[d]`,
`un2 = -fe2.shape_value_component(j,k,d) * fe1.normal_vector(k)[d]`,
`v1 = fetest1.shape_value(i,k)` and `v2 = fetest2.shape_value(i,k)`, it
performs `M11(i,j) += .5*dx*un1*v1`, `M12(i,j) += .5*dx*un2*v1`,
`M21(i,j) += .5*dx*un1*v2`, `M22(i,j) += .5*dx*un2*v2`, looping
k, i, j, d; the four matrices are distinct objects, each receiving its own
update sequence in program order. -/
def u_dot_n_matrix_pair {nq t n dim : ℕ} (M11 M12 M21 M22 : Mat t n)
    (JxW : Fin nq → ℚ) (normal1 : Fin nq → Fin dim → ℚ)
    (svc1 svc2 : Fin n → Fin nq → Fin dim → ℚ)
    (v1 v2 : Fin t → Fin nq → ℚ) (factor : ℚ) :
    Mat t n × Mat t n × Mat t n × Mat t n :=
  (applyUpdates M11 <|
    (List.finRange nq).flatMap fun k =>
      (List.finRange t).flatMap fun i =>
        (List.finRange n).flatMap fun j =>
          (List.finRange dim).map fun d =>
            (i, j, 1 / 2 * (factor * JxW k) * (svc1 j k d * normal1 k d) *
              v1 i k),
   applyUpdates M12 <|
    (List.finRange nq).flatMap fun k =>
      (List.finRange t).flatMap fun i =>
        (List.finRange n).flatMap fun j =>
          (List.finRange dim).map fun d =>
            (i, j, 1 / 2 * (factor * JxW k) * (-(svc2 j k d) * normal1 k d) *
              v1 i k),
   applyUpdates M21 <|
    (List.finRange nq).flatMap fun k =>
      (List.finRange t).flatMap fun i =>
        (List.finRange n).flatMap fun j =>
          (List.finRange dim).map fun d =>
            (i, j, 1 / 2 * (factor * JxW k) * (svc1 j k d * normal1 k d) *
              v2 i k),
   applyUpdates M22 <|
    (List.finRange nq).flatMap fun k =>
      (List.finRange t).flatMap fun i =>
        (List.finRange n).flatMap fun j =>
          (List.finRange dim).map fun d =>
            (i, j, 1 / 2 * (factor * JxW k) * (-(svc2 j k d) * normal1 k d) *
              v2 i k))

/-- Translation of LocalIntegrators::Divergence::u_dot_n_jump_matrix
(divergence.h, lines 414 to 459): with `dx = factor * JxW(k)`,
`un1 = fe1.shape_value_component(j,k,d) * fe1.normal_vector(k)[d]`,
`un2 = -fe2.shape_value_component(j,k,d) * fe1.normal_vector(k)[d]`,
`vn1 = fe1.shape_value_component(i,k,d) * fe1.normal_vector(k)[d]` and
`vn2 = -fe2.shape_value_component(i,k,d) * fe1.normal_vector(k)[d]`, it
performs `M11(i,j) += dx*un1*vn1`, `M12(i,j) += dx*un2*vn1`,
`M21(i,j) += dx*un1*vn2`, `M22(i,j) += dx*un2*vn2`, looping k, i, j, d
over square matrices of size n_dofs. -/
def u_dot_n_jump_matrix {nq n dim : ℕ} (M11 M12 M21 M22 : Mat n n)
    (JxW : Fin nq → ℚ) (normal1 : Fin nq → Fin dim → ℚ)
    (svc1 svc2 : Fin n → Fin nq → Fin dim → ℚ) (factor : ℚ) :
    Mat n n × Mat n n × Mat n n × Mat n n :=
  (applyUpdates M11 <|
    (List.finRange nq).flatMap fun k =>
      (List.finRange n).flatMap fun i =>
        (List.finRange n).flatMap fun j =>
          (List.finRange dim).map fun d =>
            (i, j, (factor * JxW k) * (svc1 j k d * normal1 k d) *
              (svc1 i k d * normal1 k d)),
   applyUpdates M12 <|
    (List.finRange nq).flatMap fun k =>
      (List.finRange n).flatMap fun i =>
        (List.finRange n).flatMap fun j =>
          (List.finRange dim).map fun d =>
            (i, j, (factor * JxW k) * (-(svc2 j k d) * normal1 k d) *
              (svc1 i k d * normal1 k d)),
   applyUpdates M21 <|
    (List.finRange nq).flatMap fun k =>
      (List.finRange n).flatMap fun i =>
        (List.finRange n).flatMap fun j =>
          (List.finRange dim).map fun d =>
            (i, j, (factor * JxW k) * (svc1 j k d * normal1 k d) *
              (-(svc2 i k d) * normal1 k d)),
   applyUpdates M22 <|
    (List.finRange nq).flatMap fun k =>
      (List.finRange n).flatMap fun i =>
        (List.finRange n).flatMap fun j =>
          (List.finRange dim).map fun d =>
            (i, j, (factor * JxW k) * (-(svc2 j k d) * normal1 k d) *
              (-(svc2 i k d) * normal1 k d)))

/-- C10: every matrix and residual routine of LocalIntegrators::Divergence
only accumulates into its output — for every prior content of the output,
the final output equals the prior content plus the contribution computed
from a zero prior content, and with factor = 0 the output is left exactly
unchanged.  The conjuncts cover cell_matrix, both cell_residual overloads,
gradient_matrix, both gradient_residual overloads, both u_dot_n_matrix
overloads, u_dot_n_residual, u_times_n_residual and u_dot_n_jump_matrix. -/
theorem divergence_routines_accumulate :
    (∀ (nq t n dim : ℕ) (M : Mat t n) (JxW : Fin nq → ℚ)
      (g : Fin n → Fin nq → Fin dim → Fin dim → ℚ)
      (tv : Fin t → Fin nq → ℚ) (factor : ℚ),
      (∀ i j, cell_matrix M JxW g tv factor i j =
        M i j + cell_matrix 0 JxW g tv factor i j) ∧
      cell_matrix M JxW g tv 0 = M) ∧
    (∀ (nq t dim : ℕ) (v : Vec t) (JxW : Fin nq → ℚ)
      (input : Fin dim → Fin nq → Fin dim → ℚ)
      (tv : Fin t → Fin nq → ℚ) (factor : ℚ),
      (∀ i, cell_residual v JxW input tv factor i =
        v i + cell_residual 0 JxW input tv factor i) ∧
      cell_residual v JxW input tv 0 = v) ∧
    (∀ (nq t dim : ℕ) (v : Vec t) (JxW : Fin nq → ℚ)
      (input : Fin dim → Fin nq → ℚ)
      (tg : Fin t → Fin nq → Fin dim → ℚ) (factor : ℚ),
      (∀ i, cell_residual_weak v JxW input tg factor i =
        v i + cell_residual_weak 0 JxW input tg factor i) ∧
      cell_residual_weak v JxW input tg 0 = v) ∧
    (∀ (nq t n dim : ℕ) (M : Mat t n) (JxW : Fin nq → ℚ)
      (g : Fin n → Fin nq → Fin dim → ℚ)
      (tvc : Fin t → Fin nq → Fin dim → ℚ) (factor : ℚ),
      (∀ i j, gradient_matrix M JxW g tvc factor i j =
        M i j + gradient_matrix 0 JxW g tvc factor i j) ∧
      gradient_matrix M JxW g tvc 0 = M) ∧
    (∀ (nq t dim : ℕ) (v : Vec t) (JxW : Fin nq → ℚ)
      (input : Fin nq → Fin dim → ℚ)
      (tvc : Fin t → Fin nq → Fin dim → ℚ) (factor : ℚ),
      (∀ i, gradient_residual v JxW input tvc factor i =
        v i + gradient_residual 0 JxW input tvc factor i) ∧
      gradient_residual v JxW input tvc 0 = v) ∧
    (∀ (nq t dim : ℕ) (v : Vec t) (JxW : Fin nq → ℚ) (input : Fin nq → ℚ)
      (tgc : Fin t → Fin nq → Fin dim → Fin dim → ℚ) (factor : ℚ),
      (∀ i, gradient_residual_weak v JxW input tgc factor i =
        v i + gradient_residual_weak 0 JxW input tgc factor i) ∧
      gradient_residual_weak v JxW input tgc 0 = v) ∧
    (∀ (nq t n dim : ℕ) (M : Mat t n) (JxW : Fin nq → ℚ)
      (nv : Fin nq → Fin dim → ℚ) (svc : Fin n → Fin nq → Fin dim → ℚ)
      (tv : Fin t → Fin nq → ℚ) (factor : ℚ),
      (∀ i j, u_dot_n_matrix M JxW nv svc tv factor i j =
        M i j + u_dot_n_matrix 0 JxW nv svc tv factor i j) ∧
      u_dot_n_matrix M JxW nv svc tv 0 = M) ∧
    (∀ (nq t dim : ℕ) (v : Vec t) (JxW : Fin nq → ℚ)
      (nv : Fin nq → Fin dim → ℚ) (tv : Fin t → Fin nq → ℚ)
      (data : Fin dim → Fin nq → ℚ) (factor : ℚ),
      (∀ i, u_dot_n_residual v JxW nv tv data factor i =
        v i + u_dot_n_residual 0 JxW nv tv data factor i) ∧
      u_dot_n_residual v JxW nv tv data 0 = v) ∧
    (∀ (nq t dim : ℕ) (v : Vec t) (JxW : Fin nq → ℚ)
      (nv : Fin nq → Fin dim → ℚ) (tvc : Fin t → Fin nq → Fin dim → ℚ)
      (data : Fin nq → ℚ) (factor : ℚ),
      (∀ i, u_times_n_residual v JxW nv tvc data factor i =
        v i + u_times_n_residual 0 JxW nv tvc data factor i) ∧
      u_times_n_residual v JxW nv tvc data 0 = v) ∧
    (∀ (nq t n dim : ℕ) (M11 M12 M21 M22 : Mat t n) (JxW : Fin nq → ℚ)
      (n1 : Fin nq → Fin dim → ℚ) (s1 s2 : Fin n → Fin nq → Fin dim → ℚ)
      (v1 v2 : Fin t → Fin nq → ℚ) (factor : ℚ),
      (∀ i j,
        (u_dot_n_matrix_pair M11 M12 M21 M22 JxW n1 s1 s2 v1 v2 factor).1 i j =
          M11 i j +
            (u_dot_n_matrix_pair 0 0 0 0 JxW n1 s1 s2 v1 v2 factor).1 i j ∧
        (u_dot_n_matrix_pair M11 M12 M21 M22 JxW n1 s1 s2 v1 v2
            factor).2.1 i j =
          M12 i j +
            (u_dot_n_matrix_pair 0 0 0 0 JxW n1 s1 s2 v1 v2 factor).2.1 i j ∧
        (u_dot_n_matrix_pair M11 M12 M21 M22 JxW n1 s1 s2 v1 v2
            factor).2.2.1 i j =
          M21 i j +
            (u_dot_n_matrix_pair 0 0 0 0 JxW n1 s1 s2 v1 v2 factor).2.2.1 i j ∧
        (u_dot_n_matrix_pair M11 M12 M21 M22 JxW n1 s1 s2 v1 v2
            factor).2.2.2 i j =
          M22 i j +
            (u_dot_n_matrix_pair 0 0 0 0 JxW n1 s1 s2 v1 v2 factor).2.2.2 i j) ∧
      u_dot_n_matrix_pair M11 M12 M21 M22 JxW n1 s1 s2 v1 v2 0 =
        (M11, M12, M21, M22)) ∧
    (∀ (nq n dim : ℕ) (M11 M12 M21 M22 : Mat n n) (JxW : Fin nq → ℚ)
      (n1 : Fin nq → Fin dim → ℚ) (s1 s2 : Fin n → Fin nq → Fin dim → ℚ)
      (factor : ℚ),
      (∀ i j,
        (u_dot_n_jump_matrix M11 M12 M21 M22 JxW n1 s1 s2 factor).1 i j =
          M11 i j + (u_dot_n_jump_matrix 0 0 0 0 JxW n1 s1 s2 factor).1 i j ∧
        (u_dot_n_jump_matrix M11 M12 M21 M22 JxW n1 s1 s2 factor).2.1 i j =
          M12 i j + (u_dot_n_jump_matrix 0 0 0 0 JxW n1 s1 s2 factor).2.1 i j ∧
        (u_dot_n_jump_matrix M11 M12 M21 M22 JxW n1 s1 s2 factor).2.2.1 i j =
          M21 i j +
            (u_dot_n_jump_matrix 0 0 0 0 JxW n1 s1 s2 factor).2.2.1 i j ∧
        (u_dot_n_jump_matrix M11 M12 M21 M22 JxW n1 s1 s2 factor).2.2.2 i j =
          M22 i j +
            (u_dot_n_jump_matrix 0 0 0 0 JxW n1 s1 s2 factor).2.2.2 i j) ∧
      u_dot_n_jump_matrix M11 M12 M21 M22 JxW n1 s1 s2 0 =
        (M11, M12, M21, M22)) := by
  refine ⟨?_, ?_, ?_, ?_, ?_, ?_, ?_, ?_, ?_, ?_, ?_⟩
  · intro nq t n dim M JxW g tv factor
    refine ⟨fun i j => applyUpdates_frame _ M i j, ?_⟩
    refine applyUpdates_zero_coeff _ ?_ M
    intro u hu
    simp only [List.mem_flatMap, List.mem_map, List.mem_finRange,
      true_and] at hu
    obtain ⟨k, i, d, j, rfl⟩ := hu
    simp
  · intro nq t dim v JxW input tv factor
    refine ⟨fun i => applyUpdatesV_frame _ v i, ?_⟩
    refine applyUpdatesV_zero_coeff _ ?_ v
    intro u hu
    simp only [List.mem_flatMap, List.mem_map, List.mem_finRange,
      true_and] at hu
    obtain ⟨k, i, d, rfl⟩ := hu
    simp
  · intro nq t dim v JxW input tg factor
    refine ⟨fun i => applyUpdatesV_frame _ v i, ?_⟩
    refine applyUpdatesV_zero_coeff _ ?_ v
    intro u hu
    simp only [List.mem_flatMap, List.mem_map, List.mem_finRange,
      true_and] at hu
    obtain ⟨k, i, d, rfl⟩ := hu
    simp
  · intro nq t n dim M JxW g tvc factor
    refine ⟨fun i j => applyUpdates_frame _ M i j, ?_⟩
    refine applyUpdates_zero_coeff _ ?_ M
    intro u hu
    simp only [List.mem_flatMap, List.mem_map, List.mem_finRange,
      true_and] at hu
    obtain ⟨k, d, i, j, rfl⟩ := hu
    simp
  · intro nq t dim v JxW input tvc factor
    refine ⟨fun i => applyUpdatesV_frame _ v i, ?_⟩
    refine applyUpdatesV_zero_coeff _ ?_ v
    intro u hu
    simp only [List.mem_flatMap, List.mem_map, List.mem_finRange,
      true_and] at hu
    obtain ⟨k, i, d, rfl⟩ := hu
    simp
  · intro nq t dim v JxW input tgc factor
    refine ⟨fun i => applyUpdatesV_frame _ v i, ?_⟩
    refine applyUpdatesV_zero_coeff _ ?_ v
    intro u hu
    simp only [List.mem_flatMap, List.mem_map, List.mem_finRange,
      true_and] at hu
    obtain ⟨k, i, d, rfl⟩ := hu
    simp
  · intro nq t n dim M JxW nv svc tv factor
    refine ⟨fun i j => applyUpdates_frame _ M i j, ?_⟩
    refine applyUpdates_zero_coeff _ ?_ M
    intro u hu
    simp only [List.mem_flatMap, List.mem_map, List.mem_finRange,
      true_and] at hu
    obtain ⟨k, i, j, d, rfl⟩ := hu
    simp
  · intro nq t dim v JxW nv tv data factor
    refine ⟨fun i => applyUpdatesV_frame _ v i, ?_⟩
    refine applyUpdatesV_zero_coeff _ ?_ v
    intro u hu
    simp only [List.mem_flatMap, List.mem_map, List.mem_finRange,
      true_and] at hu
    obtain ⟨k, i, d, rfl⟩ := hu
    simp
  · intro nq t dim v JxW nv tvc data factor
    refine ⟨fun i => applyUpdatesV_frame _ v i, ?_⟩
    refine applyUpdatesV_zero_coeff _ ?_ v
    intro u hu
    simp only [List.mem_flatMap, List.mem_map, List.mem_finRange,
      true_and] at hu
    obtain ⟨k, i, d, rfl⟩ := hu
    simp
  · intro nq t n dim M11 M12 M21 M22 JxW n1 s1 s2 v1 v2 factor
    refine ⟨fun i j => ⟨applyUpdates_frame _ M11 i j,
      applyUpdates_frame _ M12 i j, applyUpdates_frame _ M21 i j,
      applyUpdates_frame _ M22 i j⟩, ?_⟩
    refine Prod.ext ?_ (Prod.ext ?_ (Prod.ext ?_ ?_)) <;>
      first
      | exact applyUpdates_zero_coeff _ (by
          intro u hu
          simp only [List.mem_flatMap, List.mem_map, List.mem_finRange,
            true_and] at hu
          obtain ⟨k, i, j, d, rfl⟩ := hu
          simp) M11
      | exact applyUpdates_zero_coeff _ (by
          intro u hu
          simp only [List.mem_flatMap, List.mem_map, List.mem_finRange,
            true_and] at hu
          obtain ⟨k, i, j, d, rfl⟩ := hu
          simp) M12
      | exact applyUpdates_zero_coeff _ (by
          intro u hu
          simp only [List.mem_flatMap, List.mem_map, List.mem_finRange,
            true_and] at hu
          obtain ⟨k, i, j, d, rfl⟩ := hu
          simp) M21
      | exact applyUpdates_zero_coeff _ (by
          intro u hu
          simp only [List.mem_flatMap, List.mem_map, List.mem_finRange,
            true_and] at hu
          obtain ⟨k, i, j, d, rfl⟩ := hu
          simp) M22
  · intro nq n dim M11 M12 M21 M22 JxW n1 s1 s2 factor
    refine ⟨fun i j => ⟨applyUpdates_frame _ M11 i j,
      applyUpdates_frame _ M12 i j, applyUpdates_frame _ M21 i j,
      applyUpdates_frame _ M22 i j⟩, ?_⟩
    refine Prod.ext ?_ (Prod.ext ?_ (Prod.ext ?_ ?_)) <;>
      first
      | exact applyUpdates_zero_coeff _ (by
          intro u hu
          simp only [List.mem_flatMap, List.mem_map, List.mem_finRange,
            true_and] at hu
          obtain ⟨k, i, j, d, rfl⟩ := hu
          simp) M11
      | exact applyUpdates_zero_coeff _ (by
          intro u hu
          simp only [List.mem_flatMap, List.mem_map, List.mem_finRange,
            true_and] at hu
          obtain ⟨k, i, j, d, rfl⟩ := hu
          simp) M12
      | exact applyUpdates_zero_coeff _ (by
          intro u hu
          simp only [List.mem_flatMap, List.mem_map, List.mem_finRange,
            true_and] at hu
          obtain ⟨k, i, j, d, rfl⟩ := hu
          simp) M21
      | exact applyUpdates_zero_coeff _ (by
          intro u hu
          simp only [List.mem_flatMap, List.mem_map, List.mem_finRange,
            true_and] at hu
          obtain ⟨k, i, j, d, rfl⟩ := hu
          simp) M22

end Divergence

end LocalIntegrators

end DealII
